import Mathlib

/-
Verification of the HTTP/1.1 wire-format core (request encoder and
response decoder) of the http-client repository, shallowly embedded
over byte sequences.

Modelling conventions:
* A Rust byte slice / Vec of u8 is a `List Nat` (each element a byte value).
* A Rust `String` is the `List Nat` of its UTF-8 bytes.
* A Rust panic (a failed `unwrap`, or slice indexing past the end of the
  buffer) is the explicit outcome `crash`; graceful errors carry the
  `Error` value the code returns.
-/

namespace Http

/-- ASCII bytes of a string literal.  Used only on ASCII literals, where the
codepoint of each character equals its single UTF-8 byte. -/
def strBytes (s : String) : List Nat :=
  s.data.map (fun c => c.toNat)

/-- The byte sequence of the literal b" ". -/
def sp : List Nat := [32]

/-- The byte sequence of the literal b"\r\n". -/
def crlf : List Nat := [13, 10]

/-- The byte sequence of the literal b": ". -/
def colonSpace : List Nat := [58, 32]

/-- The byte sequence of the literal b"HTTP/1.1". -/
def http11 : List Nat := strBytes "HTTP/1.1"

/-- Modelled from the spec: the shared Header record (its own source file is
not part of src/).  A header is an ordered pair of name and value; each field
holds the UTF-8 bytes of the corresponding Rust String. -/
structure Header where
  name : List Nat
  value : List Nat
deriving DecidableEq, Repr

/-- Modelled from the spec: the error taxonomy (its own source file is not
part of src/).  Constructor names follow the variants used by the code in
src/: `InvalidFormat` is the spec's MalformedFormat, `UnsupportedHttp` is the
spec's UnsupportedHttpVersion. -/
inductive Error where
  | UnsupportedHttp
  | InvalidFormat
  | ExpectedBody
deriving DecidableEq, Repr

/-- The Response struct of response.rs: headers, status, optional body. -/
structure Response where
  headers : List Header
  status : Nat
  body : Option (List Nat)
deriving DecidableEq, Repr

/-- Outcome of running `Response::from_bytes`: an Ok response, an Err with an
`Error` value, or a panic (`crash`: a failed unwrap or an out-of-bounds slice
index). -/
inductive DecodeResult where
  | ok (r : Response)
  | err (e : Error)
  | crash
deriving DecidableEq, Repr

/-- Index of the first occurrence of `seq` in `l`, scanning forward exactly
like the loop of `extract_until` in response.rs: position `i` matches when
`seq` is a prefix of `l` dropped by `i`; the empty suffix is also tested.
`none` means the Rust loop increments past the end of the buffer and the
subsequent slice indexing panics. -/
def findSeq (seq : List Nat) : List Nat → Option Nat
  | [] => if seq.isPrefixOf [] then some 0 else none
  | b :: rest =>
      if seq.isPrefixOf (b :: rest) then some 0
      else (findSeq seq rest).map (fun i => i + 1)

/-- The function `extract_until` of response.rs.  Returns
(remainder after the delimiter, bytes before the delimiter), in the order of
the Rust tuple; `none` models the out-of-bounds panic when the delimiter
never occurs. -/
def extract_until (bytes seq : List Nat) : Option (List Nat × List Nat) :=
  (findSeq seq bytes).map (fun i => (bytes.drop (i + seq.length), bytes.take i))

/-- The function `expect_skip` of response.rs. -/
def expect_skip (bytes seq : List Nat) : Except Error (List Nat) :=
  if seq.isPrefixOf bytes then Except.ok (bytes.drop seq.length)
  else Except.error Error.InvalidFormat

/-- The function `extract_http_version` of response.rs. -/
def extract_http_version (bytes : List Nat) : Except Error (List Nat) :=
  if http11.isPrefixOf bytes then Except.ok (bytes.drop http11.length)
  else Except.error Error.UnsupportedHttp

/-- One byte of a decimal digit, as used by u16 parsing. -/
def digitVal (b : Nat) : Option Nat :=
  if 48 ≤ b ∧ b ≤ 57 then some (b - 48) else none

/-- Accumulate decimal digits left to right; fails on any non-digit byte. -/
def digitsValAux : List Nat → Nat → Option Nat
  | [], acc => some acc
  | b :: rest, acc =>
      match digitVal b with
      | some d => digitsValAux rest (acc * 10 + d)
      | none => none

/-- The composite `core::str::from_utf8(status).unwrap().parse::<u16>().unwrap()`
of response.rs line 36, at the level of outcomes: `some v` when the bytes
parse as a u16 (an optional leading '+' sign followed by one or more decimal
digits whose value fits in 16 bits — Rust's `u16::from_str` grammar), `none`
when either unwrap panics (invalid UTF-8, or parse failure).  A token that
parses is pure ASCII, hence valid UTF-8, so the two unwraps collapse to this
single test.  Rust reports overflow during accumulation, but the accumulator
is monotone over digits, so checking the final value is equivalent. -/
def parseU16Bytes (bs : List Nat) : Option Nat :=
  let ds := match bs with
    | 43 :: rest => rest
    | _ => bs
  match ds with
  | [] => none
  | _ :: _ =>
      match digitsValAux ds 0 with
      | some v => if v < 65536 then some v else none
      | none => none

/-- Is this byte a UTF-8 continuation byte (0x80..=0xBF)? -/
def isCont (b : Nat) : Bool :=
  decide (128 ≤ b ∧ b ≤ 191)

/-- Valid range of the second byte of a three-byte UTF-8 sequence whose first
byte is `b` (0xE0: 0xA0..=0xBF, 0xED: 0x80..=0x9F, otherwise continuation). -/
def snd3Ok (b b1 : Nat) : Bool :=
  if b = 224 then decide (160 ≤ b1 ∧ b1 ≤ 191)
  else if b = 237 then decide (128 ≤ b1 ∧ b1 ≤ 159)
  else isCont b1

/-- Valid range of the second byte of a four-byte UTF-8 sequence whose first
byte is `b` (0xF0: 0x90..=0xBF, 0xF4: 0x80..=0x8F, otherwise continuation). -/
def snd4Ok (b b1 : Nat) : Bool :=
  if b = 240 then decide (144 ≤ b1 ∧ b1 ≤ 191)
  else if b = 244 then decide (128 ≤ b1 ∧ b1 ≤ 143)
  else isCont b1

/-- The UTF-8 bytes of U+FFFD, the replacement character. -/
def repl : List Nat := [239, 191, 189]

/-- `String::from_utf8_lossy` of the Rust standard library at the byte level:
valid UTF-8 sequences are kept, each maximal invalid subpart is replaced by
one U+FFFD (its three bytes `repl`), resuming at the first byte that broke
the sequence. -/
def utf8Lossy : List Nat → List Nat
  | [] => []
  | b :: rest =>
      if b < 128 then b :: utf8Lossy rest
      else if b < 194 then repl ++ utf8Lossy rest
      else if b ≤ 223 then
        match rest with
        | [] => repl
        | b1 :: rest1 =>
            if isCont b1 then b :: b1 :: utf8Lossy rest1
            else repl ++ utf8Lossy (b1 :: rest1)
      else if b ≤ 239 then
        match rest with
        | [] => repl
        | b1 :: rest1 =>
            if snd3Ok b b1 then
              match rest1 with
              | [] => repl
              | b2 :: rest2 =>
                  if isCont b2 then b :: b1 :: b2 :: utf8Lossy rest2
                  else repl ++ utf8Lossy (b2 :: rest2)
            else repl ++ utf8Lossy (b1 :: rest1)
      else if b ≤ 244 then
        match rest with
        | [] => repl
        | b1 :: rest1 =>
            if snd4Ok b b1 then
              match rest1 with
              | [] => repl
              | b2 :: rest2 =>
                  if isCont b2 then
                    match rest2 with
                    | [] => repl
                    | b3 :: rest3 =>
                        if isCont b3 then b :: b1 :: b2 :: b3 :: utf8Lossy rest3
                        else repl ++ utf8Lossy (b3 :: rest3)
                  else repl ++ utf8Lossy (b2 :: rest2)
            else repl ++ utf8Lossy (b1 :: rest1)
      else repl ++ utf8Lossy rest

/-- Outcome of the header `while` loop of `Response::from_bytes`:
`earlyReturn` is the `return Ok(response)` taken when the slice is empty
(headers collected so far, body still None); `terminator` is normal loop
exit with the slice (beginning with the empty-line terminator) handed to the
code after the loop; `crash` is a panic inside the loop. -/
inductive LoopResult where
  | earlyReturn (headers : List Header)
  | terminator (headers : List Header) (slice : List Nat)
  | crash
deriving DecidableEq, Repr

/-- The header loop of `Response::from_bytes`, with an explicit fuel
parameter to make the recursion structural.  The fuel is an embedding
artifact only: the two loop-exit tests precede the fuel check, each
iteration shortens the slice by at least four bytes, and
`parseHeadersF_irrel` below shows any fuel at least the slice length gives
the same result, so `parseHeaders` (fuel = slice length) is the loop. -/
def parseHeadersF (fuel : Nat) (slice : List Nat) (acc : List Header) : LoopResult :=
  if crlf.isPrefixOf slice then LoopResult.terminator acc slice
  else if slice.isEmpty then LoopResult.earlyReturn acc
  else
    match fuel with
    | 0 => LoopResult.crash
    | fuel' + 1 =>
        match extract_until slice colonSpace with
        | none => LoopResult.crash
        | some (s, name) =>
            match extract_until s crlf with
            | none => LoopResult.crash
            | some (s2, value) =>
                parseHeadersF fuel' s2
                  (acc ++ [⟨utf8Lossy name, utf8Lossy value⟩])

/-- The header `while` loop of `Response::from_bytes` (lines 44–58 of
response.rs), run on `slice` with the headers pushed so far in `acc`. -/
def parseHeaders (slice : List Nat) (acc : List Header) : LoopResult :=
  parseHeadersF slice.length slice acc

/-- The code after the header loop in `Response::from_bytes`, applied to the
loop's outcome given the already-parsed status `v`: the early return inside
the loop yields the response with no body; normal exit skips the terminator
(`expect_skip(slice, b"\r\n")?`) and assigns every remaining byte as the
body (`bytes.drain(..); response.body = Some(bytes)` keeps exactly the bytes
of the remaining slice). -/
def afterHeaders (v : Nat) : LoopResult → DecodeResult
  | LoopResult.earlyReturn hs => DecodeResult.ok ⟨hs, v, none⟩
  | LoopResult.terminator hs slice =>
      match expect_skip slice crlf with
      | Except.ok rest => DecodeResult.ok ⟨hs, v, some rest⟩
      | Except.error e => DecodeResult.err e
  | LoopResult.crash => DecodeResult.crash

/-- The function `Response::from_bytes` of response.rs. -/
def Response.from_bytes (bytes : List Nat) : DecodeResult :=
  match extract_http_version bytes with
  | Except.error e => DecodeResult.err e
  | Except.ok s1 =>
  match expect_skip s1 sp with
  | Except.error e => DecodeResult.err e
  | Except.ok s2 =>
  match extract_until s2 sp with
  | none => DecodeResult.crash
  | some (s3, statusBytes) =>
  match parseU16Bytes statusBytes with
  | none => DecodeResult.crash
  | some status =>
  match extract_until s3 crlf with
  | none => DecodeResult.crash
  | some (s4, _) =>
  afterHeaders status (parseHeaders s4 [])

example : Response.from_bytes (strBytes "HTTP/1.1 200 OK\r\n\r\n")
    = DecodeResult.ok ⟨[], 200, some []⟩ := by decide

example :
    Response.from_bytes
        (strBytes "HTTP/1.1 404 Not Found\r\ncontent-type: text/plain\r\n\r\nnot found")
      = DecodeResult.ok
          ⟨[⟨strBytes "content-type", strBytes "text/plain"⟩], 404,
            some (strBytes "not found")⟩ := by decide

example : Response.from_bytes (strBytes "HTTP/1.0 200 OK\r\n\r\n")
    = DecodeResult.err Error.UnsupportedHttp := by decide

example : Response.from_bytes (strBytes "HTTP/1.1 OK OK\r\n\r\n")
    = DecodeResult.crash := by decide

example : Response.from_bytes (strBytes "HTTP/1.1 200 OK\r\nfoo: bar\r\n")
    = DecodeResult.ok ⟨[⟨strBytes "foo", strBytes "bar"⟩], 200, none⟩ := by
  decide

/-- The Method enum of request.rs. -/
inductive Method where
  | Get
  | Post
deriving DecidableEq, Repr

/-- The method's fixed ASCII token, `Method::as_bytes` of request.rs. -/
def Method.as_bytes : Method → List Nat
  | Method.Get => strBytes "GET"
  | Method.Post => strBytes "POST"

/-- The interface of the external url::Url abstraction (out of scope per the
spec): optional host text (`host_str`), path text, optional query text. -/
structure Url where
  host : Option (List Nat)
  path : List Nat
  query : Option (List Nat)
deriving DecidableEq, Repr

/-- Modelled from the spec: the external url crate's ParseError (the result
of a failed URL conversion); its variant set is elided to representatives,
only its presence as a failure value matters here. -/
inductive ParseError where
  | emptyHost
  | relativeUrlWithoutBase
deriving DecidableEq, Repr

/-- The Request struct of request.rs. -/
structure Request where
  url : Url
  method : Method
  body : Option (List Nat)
  headers : List Header
deriving DecidableEq, Repr

/-- One `stream.write_all(bytes)` call: the transport sink accumulates the
bytes in order. -/
def writeAll (sink bytes : List Nat) : List Nat :=
  sink ++ bytes

/-- The header `for` loop of `Request::write` (request.rs lines 77–82): four
`write_all` calls per header, in insertion order. -/
def writeHeaders (hs : List Header) (sink : List Nat) : List Nat :=
  hs.foldl
    (fun s h => writeAll (writeAll (writeAll (writeAll s h.name) colonSpace) h.value) crlf)
    sink

/-- The function `Request::write` of request.rs, modelled as the byte
sequence accumulated on the transport sink by its sequence of `write_all`
calls. -/
def Request.write (r : Request) (sink : List Nat) : List Nat :=
  let s := writeAll sink r.method.as_bytes
  let s := writeAll s sp
  let s := writeAll s r.url.path
  let s := match r.url.query with
    | some q => writeAll s q
    | none => s
  let s := writeAll s (strBytes " HTTP/1.1\r\n")
  let s := writeHeaders r.headers s
  match r.body with
  | some b => writeAll (writeAll s crlf) b
  | none => s

/-- The RequestBuilder struct of request.rs. -/
structure RequestBuilder where
  request : Request
deriving DecidableEq, Repr

/-- Outcome of request construction: `crash` models the panic of the
`url.try_into().unwrap()` call in `RequestBuilder::new` when the URL
conversion failed. -/
inductive BuildResult where
  | ok (b : RequestBuilder)
  | crash
deriving DecidableEq, Repr

/-- The function `RequestBuilder::new` of request.rs: unwraps the URL
conversion result (panicking on a conversion error), then seeds the header
list with a host header exactly when the URL exposes a host. -/
def RequestBuilder.new (method : Method) (url : Except ParseError Url) : BuildResult :=
  match url with
  | Except.error _ => BuildResult.crash
  | Except.ok url =>
      BuildResult.ok
        ⟨{ method := method
           body := none
           headers :=
             match url.host with
             | some host => [⟨strBytes "host", host⟩]
             | none => []
           url := url }⟩

/-- The function `Request::get` of request.rs. -/
def Request.get (url : Except ParseError Url) : BuildResult :=
  RequestBuilder.new Method.Get url

/-- The function `Request::post` of request.rs. -/
def Request.post (url : Except ParseError Url) : BuildResult :=
  RequestBuilder.new Method.Post url

/-- The function `RequestBuilder::header` of request.rs: pushes one header
at the end of the list. -/
def RequestBuilder.header (b : RequestBuilder) (name value : List Nat) : RequestBuilder :=
  ⟨{ b.request with headers := b.request.headers ++ [⟨name, value⟩] }⟩

/-- The decimal ASCII bytes of `format!("{n}")` for a usize. -/
def decimalBytes (n : Nat) : List Nat :=
  (Nat.toDigits 10 n).map (fun c => c.toNat)

/-- The function `RequestBuilder::json` of request.rs.  The serde_json
serialization of the payload is external (the payload codec collaborator);
the function receives its byte output `payloadBytes`, stores it as the body,
and appends the content-length and content-type headers. -/
def RequestBuilder.json (b : RequestBuilder) (payloadBytes : List Nat) : RequestBuilder :=
  let bytes := payloadBytes
  let len := bytes.length
  ((⟨{ b.request with body := some bytes }⟩ : RequestBuilder).header
      (strBytes "content-length") (decimalBytes len)).header
    (strBytes "content-type") (strBytes "application/json")

/-- Headers of a build outcome (`none` when construction panicked). -/
def BuildResult.headersOf : BuildResult → Option (List Header)
  | BuildResult.ok b => some b.request.headers
  | BuildResult.crash => none

/-- The flattened header block: one `name: value` line per header, in order.
`writeHeaders_eq` below relates it to the encoder's fold. -/
def headerLines : List Header → List Nat
  | [] => []
  | h :: t => h.name ++ colonSpace ++ h.value ++ crlf ++ headerLines t

/-- A response buffer carrying the encoder's own header-block output for the
header list `hs`: a fixed valid status line, then the bytes `Request::write`
emits for `hs`, then the empty-line terminator. -/
def responseOf (hs : List Header) : List Nat :=
  http11 ++ sp ++ strBytes "200" ++ sp ++ strBytes "OK" ++ crlf ++ (writeHeaders hs [] ++ crlf)

example :
    Request.write
        ⟨⟨some (strBytes "example.com"), strBytes "/a", some (strBytes "?q=1")⟩,
          Method.Get, none, [⟨strBytes "host", strBytes "example.com"⟩]⟩ []
      = strBytes "GET /a?q=1 HTTP/1.1\r\nhost: example.com\r\n" := by decide

example :
    Response.from_bytes (responseOf [⟨strBytes "a", strBytes "b"⟩])
      = DecodeResult.ok ⟨[⟨strBytes "a", strBytes "b"⟩], 200, some []⟩ := by
  decide

/-- A list is a Boolean prefix of itself followed by anything. -/
lemma isPrefixOf_self_append (l r : List Nat) : l.isPrefixOf (l ++ r) = true := by
  induction l with
  | nil => simp [List.isPrefixOf]
  | cons a t ih => simp [List.isPrefixOf, ih]

/-- Dropping the length of the left part of an append, plus `n`, drops into
the right part. -/
lemma drop_append_plus (a b : List Nat) (n : Nat) :
    (a ++ b).drop (a.length + n) = b.drop n := by
  induction a with
  | nil => simp
  | cons c t ih =>
      rw [List.cons_append, List.length_cons,
        show t.length + 1 + n = (t.length + n) + 1 from by omega,
        List.drop_succ_cons, ih]

/-- Taking the length of the left part of an append returns the left part. -/
lemma take_self_append (l r : List Nat) : (l ++ r).take l.length = l := by
  induction l with
  | nil => simp
  | cons c t ih => simp [ih]

/-- `expect_skip` on a buffer beginning with the expected literal strips it. -/
lemma expect_skip_self (l r : List Nat) : expect_skip (l ++ r) l = Except.ok r := by
  have hd : (l ++ r).drop l.length = r := by
    simp
  simp [expect_skip, isPrefixOf_self_append, hd]

/-- `extract_http_version` on a buffer beginning with the version literal
strips it. -/
lemma extract_http_version_append (r : List Nat) :
    extract_http_version (http11 ++ r) = Except.ok r := by
  have hd : (http11 ++ r).drop http11.length = r := by
    simp
  simp [extract_http_version, isPrefixOf_self_append, hd]

/-- A Boolean prefix is no longer than the list. -/
lemma isPrefixOf_length {seq l : List Nat} (h : seq.isPrefixOf l = true) :
    seq.length ≤ l.length := by
  induction seq generalizing l with
  | nil => simp
  | cons a t ih =>
      cases l with
      | nil => simp [List.isPrefixOf] at h
      | cons b bs =>
          simp only [List.isPrefixOf, Bool.and_eq_true] at h
          simpa using ih h.2

/-- The index found by `findSeq` leaves room for the sought sequence. -/
lemma findSeq_le {seq : List Nat} :
    ∀ {l : List Nat} {i : Nat}, findSeq seq l = some i → i + seq.length ≤ l.length := by
  intro l
  induction l with
  | nil =>
      intro i h
      rw [findSeq] at h
      split at h
      · next hp =>
          cases h
          simpa using isPrefixOf_length hp
      · simp at h
  | cons b rest ih =>
      intro i h
      rw [findSeq] at h
      split at h
      · next hp =>
          cases h
          simpa using isPrefixOf_length hp
      · next hp =>
          cases hm : findSeq seq rest with
          | none => rw [hm] at h; simp at h
          | some j =>
              rw [hm] at h
              simp only [Option.map_some'] at h
              cases h
              have := ih hm
              simp only [List.length_cons]
              omega

/-- The remainder returned by `extract_until` is shorter than the input by at
least the sought sequence's length. -/
lemma extract_until_length {l seq rest ext : List Nat}
    (h : extract_until l seq = some (rest, ext)) :
    rest.length + seq.length ≤ l.length := by
  rw [extract_until] at h
  cases hf : findSeq seq l with
  | none => rw [hf] at h; simp at h
  | some i =>
      rw [hf] at h
      simp only [Option.map_some', Option.some_inj, Prod.mk.injEq] at h
      have hb := findSeq_le hf
      have hr : rest = l.drop (i + seq.length) := h.1.symm
      subst hr
      simp only [List.length_drop]
      omega

/-- Scanning for a single byte that does not occur in `a` finds its first
occurrence right after `a`. -/
lemma findSeq_single_append (x : Nat) (a b : List Nat)
    (ha : findSeq [x] a = none) :
    findSeq [x] (a ++ x :: b) = some a.length := by
  induction a with
  | nil =>
      rw [List.nil_append, findSeq]
      simp [List.isPrefixOf]
  | cons c t ih =>
      rw [findSeq] at ha
      have hsplit : ([x].isPrefixOf (c :: t)) = false ∧ findSeq [x] t = none := by
        by_cases hpre : ([x].isPrefixOf (c :: t)) = true
        · rw [if_pos hpre] at ha
          exact absurd ha (by simp)
        · refine ⟨?_, ?_⟩
          · cases hval : ([x].isPrefixOf (c :: t)) with
            | false => rfl
            | true => exact absurd hval hpre
          · rw [if_neg hpre] at ha
            cases hm : findSeq [x] t with
            | none => rfl
            | some j => rw [hm] at ha; simp at ha
      have hxc : (x == c) = false := by
        have h1 := hsplit.1
        simpa [List.isPrefixOf] using h1
      rw [List.cons_append, findSeq]
      have hcond : ([x].isPrefixOf (c :: (t ++ x :: b))) = false := by
        simp [List.isPrefixOf, hxc]
      rw [hcond, if_neg (by decide)]
      rw [ih hsplit.2]
      simp

/-- Scanning for a two-byte sequence of distinct bytes that does not occur in
`a` finds its first occurrence right after `a`. -/
lemma findSeq_pair_append (x y : Nat) (hxy : x ≠ y) (a b : List Nat)
    (ha : findSeq [x, y] a = none) :
    findSeq [x, y] (a ++ x :: y :: b) = some a.length := by
  induction a with
  | nil =>
      rw [List.nil_append, findSeq]
      simp [List.isPrefixOf]
  | cons c t ih =>
      rw [findSeq] at ha
      have hsplit : ([x, y].isPrefixOf (c :: t)) = false ∧ findSeq [x, y] t = none := by
        by_cases hpre : ([x, y].isPrefixOf (c :: t)) = true
        · rw [if_pos hpre] at ha
          exact absurd ha (by simp)
        · refine ⟨?_, ?_⟩
          · cases hval : ([x, y].isPrefixOf (c :: t)) with
            | false => rfl
            | true => exact absurd hval hpre
          · rw [if_neg hpre] at ha
            cases hm : findSeq [x, y] t with
            | none => rfl
            | some j => rw [hm] at ha; simp at ha
      have hcond : ([x, y].isPrefixOf (c :: (t ++ x :: y :: b))) = false := by
        by_cases hxc : (x == c) = true
        · cases t with
          | nil =>
              have hyx : (y == x) = false := by
                simp only [beq_eq_false_iff_ne, ne_eq]
                exact fun hy => hxy hy.symm
              simp [List.isPrefixOf, hyx]
          | cons d t2 =>
              have hyd : (y == d) = false := by
                have h1 := hsplit.1
                simpa [List.isPrefixOf, hxc] using h1
              simp [List.isPrefixOf, hyd]
        · have hxc' : (x == c) = false := by simpa using hxc
          simp [List.isPrefixOf, hxc']
      rw [List.cons_append, findSeq, hcond, if_neg (by decide)]
      rw [ih hsplit.2]
      simp

/-- `extract_until` for the space delimiter over a space-free token. -/
lemma extract_until_sp (a b : List Nat) (ha : findSeq sp a = none) :
    extract_until (a ++ (sp ++ b)) sp = some (b, a) := by
  have ha' : findSeq [32] a = none := ha
  have h1 : (a ++ 32 :: b).drop (a.length + 1) = b := by
    simp
  have h2 : (a ++ 32 :: b).take a.length = a := take_self_append a (32 :: b)
  simp only [sp, List.cons_append, List.nil_append]
  rw [extract_until, findSeq_single_append 32 a b ha']
  simp [h1, h2]

/-- `extract_until` for the CRLF delimiter over a CRLF-free chunk. -/
lemma extract_until_crlf (a b : List Nat) (ha : findSeq crlf a = none) :
    extract_until (a ++ (crlf ++ b)) crlf = some (b, a) := by
  have ha' : findSeq [13, 10] a = none := ha
  have h1 : (a ++ 13 :: 10 :: b).drop (a.length + 2) = b := by
    simp
  have h2 : (a ++ 13 :: 10 :: b).take a.length = a := take_self_append a (13 :: 10 :: b)
  simp only [crlf, List.cons_append, List.nil_append]
  rw [extract_until, findSeq_pair_append 13 10 (by decide) a b ha']
  simp [h1, h2]

/-- `extract_until` for the header name delimiter over a name free of it. -/
lemma extract_until_colon (a b : List Nat) (ha : findSeq colonSpace a = none) :
    extract_until (a ++ (colonSpace ++ b)) colonSpace = some (b, a) := by
  have ha' : findSeq [58, 32] a = none := ha
  have h1 : (a ++ 58 :: 32 :: b).drop (a.length + 2) = b := by
    simp
  have h2 : (a ++ 58 :: 32 :: b).take a.length = a := take_self_append a (58 :: 32 :: b)
  simp only [colonSpace, List.cons_append, List.nil_append]
  rw [extract_until, findSeq_pair_append 58 32 (by decide) a b ha']
  simp [h1, h2]

/-- The loop leaves immediately with an early return on an empty slice,
whatever the fuel: both exit tests precede the fuel check. -/
lemma parseHeadersF_nil (fuel : Nat) (acc : List Header) :
    parseHeadersF fuel [] acc = LoopResult.earlyReturn acc := by
  rw [parseHeadersF.eq_def]
  rfl

/-- The loop leaves immediately when the slice starts with the empty-line
terminator, whatever the fuel. -/
lemma parseHeadersF_term (fuel : Nat) (slice : List Nat) (acc : List Header)
    (h : crlf.isPrefixOf slice = true) :
    parseHeadersF fuel slice acc = LoopResult.terminator acc slice := by
  rw [parseHeadersF.eq_def, if_pos h]

/-- A non-empty list is not Boolean-empty. -/
lemma isEmpty_ne_true (slice : List Nat) (hne : slice ≠ []) :
    ¬slice.isEmpty = true := by
  cases slice with
  | nil => exact absurd rfl hne
  | cons c t => simp

/-- Loop body, panic case: the header-name delimiter is never found. -/
lemma parseHeadersF_crash1 (fuel : Nat) (slice : List Nat) (acc : List Header)
    (hc : ¬crlf.isPrefixOf slice = true) (hne : slice ≠ [])
    (h3 : extract_until slice colonSpace = none) :
    parseHeadersF (fuel + 1) slice acc = LoopResult.crash := by
  rw [parseHeadersF.eq_def, if_neg hc, if_neg (isEmpty_ne_true slice hne), h3]

/-- Loop body, panic case: the header-value terminator is never found. -/
lemma parseHeadersF_crash2 (fuel : Nat) (slice : List Nat) (acc : List Header)
    (s name : List Nat)
    (hc : ¬crlf.isPrefixOf slice = true) (hne : slice ≠ [])
    (h3 : extract_until slice colonSpace = some (s, name))
    (h4 : extract_until s crlf = none) :
    parseHeadersF (fuel + 1) slice acc = LoopResult.crash := by
  rw [parseHeadersF.eq_def, if_neg hc, if_neg (isEmpty_ne_true slice hne)]
  simp only [h3, h4]

/-- Loop body, normal case: one header is extracted and pushed, and the loop
continues on the remainder with one unit of fuel spent. -/
lemma parseHeadersF_some (fuel : Nat) (slice : List Nat) (acc : List Header)
    (s name s2 value : List Nat)
    (hc : ¬crlf.isPrefixOf slice = true) (hne : slice ≠ [])
    (h3 : extract_until slice colonSpace = some (s, name))
    (h4 : extract_until s crlf = some (s2, value)) :
    parseHeadersF (fuel + 1) slice acc
      = parseHeadersF fuel s2 (acc ++ [⟨utf8Lossy name, utf8Lossy value⟩]) := by
  rw [parseHeadersF.eq_def, if_neg hc, if_neg (isEmpty_ne_true slice hne)]
  simp only [h3, h4]

/-- The fuel of `parseHeadersF` is irrelevant as long as it is at least the
slice length: every iteration consumes at least four bytes of the slice. -/
lemma parseHeadersF_irrel :
    ∀ (f1 f2 : Nat) (slice : List Nat) (acc : List Header),
      slice.length ≤ f1 → slice.length ≤ f2 →
      parseHeadersF f1 slice acc = parseHeadersF f2 slice acc := by
  intro f1
  induction f1 with
  | zero =>
      intro f2 slice acc h1 h2
      have hnil : slice = [] := List.length_eq_zero.mp (Nat.le_zero.mp h1)
      subst hnil
      rw [parseHeadersF_nil, parseHeadersF_nil]
  | succ f1 ih =>
      intro f2 slice acc h1 h2
      by_cases hc : crlf.isPrefixOf slice = true
      · rw [parseHeadersF_term _ _ _ hc, parseHeadersF_term _ _ _ hc]
      · by_cases hne : slice = []
        · subst hne
          rw [parseHeadersF_nil, parseHeadersF_nil]
        · cases f2 with
          | zero =>
              exact absurd (List.length_eq_zero.mp (Nat.le_zero.mp h2)) hne
          | succ g =>
              cases h3 : extract_until slice colonSpace with
              | none =>
                  rw [parseHeadersF_crash1 f1 slice acc hc hne h3,
                    parseHeadersF_crash1 g slice acc hc hne h3]
              | some p =>
                  obtain ⟨s, name⟩ := p
                  cases h4 : extract_until s crlf with
                  | none =>
                      rw [parseHeadersF_crash2 f1 slice acc s name hc hne h3 h4,
                        parseHeadersF_crash2 g slice acc s name hc hne h3 h4]
                  | some q =>
                      obtain ⟨s2, value⟩ := q
                      rw [parseHeadersF_some f1 slice acc s name s2 value hc hne h3 h4,
                        parseHeadersF_some g slice acc s name s2 value hc hne h3 h4]
                      have l3 : s.length + 2 ≤ slice.length := by
                        have := extract_until_length h3
                        simpa [colonSpace] using this
                      have l4 : s2.length + 2 ≤ s.length := by
                        have := extract_until_length h4
                        simpa [crlf] using this
                      exact ih g s2 _ (by omega) (by omega)

/-- The header loop on an empty slice: the early return with the headers
collected so far. -/
lemma parseHeaders_nil (acc : List Header) :
    parseHeaders [] acc = LoopResult.earlyReturn acc :=
  parseHeadersF_nil _ _

/-- The header loop on a slice starting with the terminator: normal exit. -/
lemma parseHeaders_term (slice : List Nat) (acc : List Header)
    (h : crlf.isPrefixOf slice = true) :
    parseHeaders slice acc = LoopResult.terminator acc slice :=
  parseHeadersF_term _ _ _ h

/-- A slice beginning with a name free of the terminator as a prefix, then
`": "`, never starts with the terminator. -/
lemma crlf_not_prefix_line (name Y : List Nat)
    (hp : crlf.isPrefixOf name = false) :
    crlf.isPrefixOf (name ++ (58 :: 32 :: Y)) = false := by
  cases name with
  | nil => simp [crlf, List.isPrefixOf]
  | cons c t =>
      cases t with
      | nil => simp [crlf, List.isPrefixOf]
      | cons d t2 =>
          simp only [crlf, List.isPrefixOf, List.cons_append, Bool.and_eq_false_iff] at hp ⊢
          rcases hp with h | h
          · exact Or.inl h
          · rcases h with h | h
            · exact Or.inr (Or.inl h)
            · exact absurd h (by simp [List.isPrefixOf])

/-- One loop iteration at the `parseHeaders` level: a well-delimited header
line is consumed and its name and value (lossily decoded) are pushed. -/
lemma parseHeaders_cons (name value rest : List Nat) (acc : List Header)
    (hn : findSeq colonSpace name = none)
    (hp : crlf.isPrefixOf name = false)
    (hv : findSeq crlf value = none) :
    parseHeaders (name ++ (colonSpace ++ (value ++ (crlf ++ rest)))) acc
      = parseHeaders rest (acc ++ [⟨utf8Lossy name, utf8Lossy value⟩]) := by
  have hshape : name ++ (colonSpace ++ (value ++ (crlf ++ rest)))
      = name ++ (58 :: 32 :: (value ++ (crlf ++ rest))) := by
    simp [colonSpace]
  have hc : crlf.isPrefixOf (name ++ (colonSpace ++ (value ++ (crlf ++ rest)))) = false := by
    rw [hshape]
    exact crlf_not_prefix_line name _ hp
  have hne : name ++ (colonSpace ++ (value ++ (crlf ++ rest))) ≠ [] := by
    simp [colonSpace]
  have hlen : (name ++ (colonSpace ++ (value ++ (crlf ++ rest)))).length
      = name.length + value.length + rest.length + 4 := by
    simp [colonSpace, crlf]
    omega
  have hx1 : extract_until (name ++ (colonSpace ++ (value ++ (crlf ++ rest)))) colonSpace
      = some (value ++ (crlf ++ rest), name) := extract_until_colon name _ hn
  have hx2 : extract_until (value ++ (crlf ++ rest)) crlf = some (rest, value) :=
    extract_until_crlf value rest hv
  rw [parseHeaders, hlen]
  rw [show name.length + value.length + rest.length + 4
      = (name.length + value.length + rest.length + 3) + 1 from by omega]
  rw [parseHeadersF_some _ _ _ _ _ _ _ (by simp [hc]) hne hx1 hx2]
  rw [parseHeaders]
  exact parseHeadersF_irrel _ _ rest _ (by omega) (by omega)

/-- The encoder's header fold equals the sink followed by the flattened
header block. -/
lemma writeHeaders_eq (hs : List Header) (sink : List Nat) :
    writeHeaders hs sink = sink ++ headerLines hs := by
  induction hs generalizing sink with
  | nil => simp [writeHeaders, headerLines]
  | cons h t ih =>
      unfold writeHeaders at ih ⊢
      rw [List.foldl_cons, ih, headerLines]
      simp [writeAll, List.append_assoc]

/-- Running the header loop over a well-delimited header block: every header
whose name contains no `": "` and does not start with CRLF, and whose value
contains no CRLF, is consumed in order, and the loop continues on the bytes
after the block. -/
lemma parseHeaders_block (hs : List Header) (tail : List Nat) (acc : List Header)
    (hh : ∀ h ∈ hs, findSeq colonSpace h.name = none
        ∧ crlf.isPrefixOf h.name = false ∧ findSeq crlf h.value = none) :
    parseHeaders (headerLines hs ++ tail) acc
      = parseHeaders tail (acc ++ hs.map (fun h => ⟨utf8Lossy h.name, utf8Lossy h.value⟩)) := by
  induction hs generalizing acc with
  | nil => simp [headerLines]
  | cons h t ih =>
      obtain ⟨h1, h2, h3⟩ := hh h (by simp)
      have hrest : ∀ x ∈ t, findSeq colonSpace x.name = none
          ∧ crlf.isPrefixOf x.name = false ∧ findSeq crlf x.value = none :=
        fun x hx => hh x (by simp [hx])
      have hshape : headerLines (h :: t) ++ tail
          = h.name ++ (colonSpace ++ (h.value ++ (crlf ++ (headerLines t ++ tail)))) := by
        rw [headerLines]
        simp [List.append_assoc]
      rw [hshape, parseHeaders_cons h.name h.value (headerLines t ++ tail) acc h1 h2 h3,
        ih _ hrest]
      simp

/-- Decoding a buffer with a well-formed status line reduces to the header
loop on the rest of the buffer: the version literal is stripped, the status
token (space-free, parsing as a u16) gives the status, and the reason chunk
(CRLF-free) is discarded. -/
lemma from_bytes_statusline (tok reason hb : List Nat) (v : Nat)
    (h1 : findSeq sp tok = none) (h2 : parseU16Bytes tok = some v)
    (h3 : findSeq crlf reason = none) :
    Response.from_bytes
        (http11 ++ (sp ++ (tok ++ (sp ++ (reason ++ (crlf ++ hb))))))
      = afterHeaders v (parseHeaders hb []) := by
  have e1 : extract_http_version
      (http11 ++ (sp ++ (tok ++ (sp ++ (reason ++ (crlf ++ hb))))))
      = Except.ok (sp ++ (tok ++ (sp ++ (reason ++ (crlf ++ hb))))) :=
    extract_http_version_append _
  have e2 : expect_skip (sp ++ (tok ++ (sp ++ (reason ++ (crlf ++ hb))))) sp
      = Except.ok (tok ++ (sp ++ (reason ++ (crlf ++ hb)))) :=
    expect_skip_self _ _
  have e3 : extract_until (tok ++ (sp ++ (reason ++ (crlf ++ hb)))) sp
      = some (reason ++ (crlf ++ hb), tok) :=
    extract_until_sp tok _ h1
  have e4 : extract_until (reason ++ (crlf ++ hb)) crlf = some (hb, reason) :=
    extract_until_crlf reason hb h3
  rw [Response.from_bytes.eq_def]
  simp only [e1, e2, e3, e4, h2]

/-- Closed form of the byte sequence `Request::write` puts on the transport:
method token, space, path, query verbatim when present, the request-line
tail, the header block in insertion order, and — only when a body is present
— a blank line followed by the raw body bytes. -/
lemma write_spec (r : Request) :
    Request.write r []
      = r.method.as_bytes ++ sp ++ r.url.path
        ++ (match r.url.query with
            | some q => q
            | none => [])
        ++ strBytes " HTTP/1.1\r\n" ++ headerLines r.headers
        ++ (match r.body with
            | some b => crlf ++ b
            | none => []) := by
  rw [Request.write.eq_def]
  cases hq : r.url.query with
  | none =>
      cases hb : r.body with
      | none => simp [writeAll, writeHeaders_eq, List.append_assoc]
      | some b => simp [writeAll, writeHeaders_eq, List.append_assoc]
  | some q =>
      cases hb : r.body with
      | none => simp [writeAll, writeHeaders_eq, List.append_assoc]
      | some b => simp [writeAll, writeHeaders_eq, List.append_assoc]

/-- Mapping the lossy re-decoding over headers whose fields it leaves
unchanged (valid UTF-8 fields) is the identity. -/
lemma map_lossy_id (hs : List Header)
    (hh : ∀ h ∈ hs, utf8Lossy h.name = h.name ∧ utf8Lossy h.value = h.value) :
    hs.map (fun h => (⟨utf8Lossy h.name, utf8Lossy h.value⟩ : Header)) = hs := by
  induction hs with
  | nil => rfl
  | cons h t ih =>
      obtain ⟨hn, hv⟩ := hh h (by simp)
      rw [List.map_cons, hn, hv, ih (fun x hx => hh x (by simp [hx]))]

/-- Claim C1, counterexample: decoding a buffer with the non-numeric status
token "OK" panics (the parse result is unwrapped), it does not return the
MalformedFormat (InvalidFormat) error the claim asserts. -/
theorem c1_counterexample :
    Response.from_bytes (strBytes "HTTP/1.1 OK OK\r\n\r\n") = DecodeResult.crash
    ∧ Response.from_bytes (strBytes "HTTP/1.1 OK OK\r\n\r\n")
        ≠ DecodeResult.err Error.InvalidFormat := by
  decide

/-- Claim C1 (amended): for every buffer whose status-code token (the
space-free bytes between the space after the version literal and the next
space) does not parse as a decimal unsigned 16-bit integer,
`Response::from_bytes` panics on the unwrapped parse result rather than
returning a MalformedFormat error. -/
theorem c1_bad_status_token_panics (tok rest : List Nat)
    (h1 : findSeq sp tok = none) (h2 : parseU16Bytes tok = none) :
    Response.from_bytes (http11 ++ (sp ++ (tok ++ (sp ++ rest))))
      = DecodeResult.crash := by
  have e1 : extract_http_version (http11 ++ (sp ++ (tok ++ (sp ++ rest))))
      = Except.ok (sp ++ (tok ++ (sp ++ rest))) := extract_http_version_append _
  have e2 : expect_skip (sp ++ (tok ++ (sp ++ rest))) sp
      = Except.ok (tok ++ (sp ++ rest)) := expect_skip_self _ _
  have e3 : extract_until (tok ++ (sp ++ rest)) sp = some (rest, tok) :=
    extract_until_sp tok rest h1
  rw [Response.from_bytes.eq_def]
  simp only [e1, e2, e3, h2]

/-- Claim C1, witness for the amended theorem at the token "OK". -/
theorem c1_witness :
    Response.from_bytes
        (http11 ++ (sp ++ (strBytes "OK" ++ (sp ++ strBytes "OK\r\n\r\n"))))
      = DecodeResult.crash :=
  c1_bad_status_token_panics (strBytes "OK") (strBytes "OK\r\n\r\n")
    (by decide) (by decide)

/-- Claim C2: on buffers in which an expected delimiter never occurs in the
remaining bytes — `\r\n` while scanning the status line, `: ` while
scanning a header name, `\r\n` while scanning a header value — the scan of
`extract_until` runs past the end of the buffer (`findSeq` finds no
occurrence, modelling the out-of-bounds slice index, an abrupt panic rather
than a graceful decode error), and `Response::from_bytes` crashes instead of
returning an error value. -/
theorem c2_missing_delimiter_overruns :
    (extract_until (strBytes "X") crlf = none
      ∧ Response.from_bytes (strBytes "HTTP/1.1 200 X") = DecodeResult.crash)
    ∧ (extract_until (strBytes "no-colon") colonSpace = none
      ∧ Response.from_bytes (strBytes "HTTP/1.1 200 OK\r\nno-colon")
          = DecodeResult.crash)
    ∧ (extract_until (strBytes "v-no-crlf") crlf = none
      ∧ Response.from_bytes (strBytes "HTTP/1.1 200 OK\r\na: v-no-crlf")
          = DecodeResult.crash) := by
  decide

/-- Claim C3: a buffer beginning with a valid status line whose bytes run
out during the header loop before the empty-line terminator (the loop
reaches an empty slice, taking its early return) decodes to Ok with exactly
the headers collected so far and an absent body. -/
theorem c3_exhausted_buffer_is_lenient (tok reason hb : List Nat) (v : Nat)
    (hs : List Header)
    (h1 : findSeq sp tok = none) (h2 : parseU16Bytes tok = some v)
    (h3 : findSeq crlf reason = none)
    (h4 : parseHeaders hb [] = LoopResult.earlyReturn hs) :
    Response.from_bytes
        (http11 ++ (sp ++ (tok ++ (sp ++ (reason ++ (crlf ++ hb))))))
      = DecodeResult.ok ⟨hs, v, none⟩ := by
  rw [from_bytes_statusline tok reason hb v h1 h2 h3, h4]
  rfl

/-- Claim C3, witness: a buffer ending right after one complete header line
with no terminator decodes to that one header and no body. -/
theorem c3_witness :
    Response.from_bytes
        (http11 ++ (sp ++ (strBytes "200" ++ (sp
          ++ (strBytes "OK" ++ (crlf ++ strBytes "foo: bar\r\n"))))))
      = DecodeResult.ok ⟨[⟨strBytes "foo", strBytes "bar"⟩], 200, none⟩ :=
  c3_exhausted_buffer_is_lenient (strBytes "200") (strBytes "OK")
    (strBytes "foo: bar\r\n") 200 [⟨strBytes "foo", strBytes "bar"⟩]
    (by decide) (by decide) (by decide) (by decide)

/-- Claim C4: every buffer that does not begin with the exact 8-byte literal
"HTTP/1.1" is rejected with the UnsupportedHttpVersion error. -/
theorem c4_wrong_version_rejected (bytes : List Nat)
    (h : http11.isPrefixOf bytes = false) :
    Response.from_bytes bytes = DecodeResult.err Error.UnsupportedHttp := by
  rw [Response.from_bytes.eq_def]
  simp [extract_http_version, h]

/-- Claim C4, witness at the buffer "HTTP/1.0 200 OK\r\n\r\n"; the empty
buffer and arbitrary bytes satisfy the same hypothesis. -/
theorem c4_witness :
    Response.from_bytes (strBytes "HTTP/1.0 200 OK\r\n\r\n")
      = DecodeResult.err Error.UnsupportedHttp :=
  c4_wrong_version_rejected (strBytes "HTTP/1.0 200 OK\r\n\r\n") (by decide)

/-- Claim C5: the serialized request is exactly the method token, a space,
the path verbatim, the query (when present) appended with no separator
inserted, the literal " HTTP/1.1\r\n", one "name: value\r\n" line per
header in insertion order (headerLines), and — only when a body is present —
a blank line followed by the raw body bytes; with no body the output ends at
the last header line. -/
theorem c5_write_exact_format (r : Request) :
    Request.write r []
      = r.method.as_bytes ++ sp ++ r.url.path
        ++ (match r.url.query with
            | some q => q
            | none => [])
        ++ strBytes " HTTP/1.1\r\n" ++ headerLines r.headers
        ++ (match r.body with
            | some b => crlf ++ b
            | none => []) :=
  write_spec r

/-- Claim C6: when the header loop finds the empty-line terminator, the
decoder consumes it and assigns all remaining bytes as the body with no
length validation; zero remaining bytes give a present, empty body. -/
theorem c6_terminator_takes_rest_as_body (tok reason hb body : List Nat)
    (v : Nat) (hs : List Header)
    (h1 : findSeq sp tok = none) (h2 : parseU16Bytes tok = some v)
    (h3 : findSeq crlf reason = none)
    (h4 : parseHeaders hb [] = LoopResult.terminator hs (crlf ++ body)) :
    Response.from_bytes
        (http11 ++ (sp ++ (tok ++ (sp ++ (reason ++ (crlf ++ hb))))))
      = DecodeResult.ok ⟨hs, v, some body⟩ := by
  rw [from_bytes_statusline tok reason hb v h1 h2 h3, h4]
  simp only [afterHeaders, expect_skip_self]

/-- Claim C6, witness: the spec's example "HTTP/1.1 200 OK\r\n\r\n"
yields status 200, no headers, and a present empty body. -/
theorem c6_witness :
    Response.from_bytes
        (http11 ++ (sp ++ (strBytes "200" ++ (sp
          ++ (strBytes "OK" ++ (crlf ++ crlf))))))
      = DecodeResult.ok ⟨[], 200, some []⟩ :=
  c6_terminator_takes_rest_as_body (strBytes "200") (strBytes "OK") crlf []
    200 [] (by decide) (by decide) (by decide) (by decide)

/-- Claim C7, counterexample: a header whose name contains the `": "`
delimiter does not round-trip — the encoder's own output for the single
header ("a: b", "c") decodes to the different header ("a", "b: c"), so the
claim is false for arbitrary header lists. -/
theorem c7_counterexample :
    Response.from_bytes (responseOf [⟨strBytes "a: b", strBytes "c"⟩])
        ≠ DecodeResult.ok ⟨[⟨strBytes "a: b", strBytes "c"⟩], 200, some []⟩
    ∧ Response.from_bytes (responseOf [⟨strBytes "a: b", strBytes "c"⟩])
        = DecodeResult.ok ⟨[⟨strBytes "a", strBytes "b: c"⟩], 200, some []⟩ := by
  decide

/-- Claim C7 (amended): for every ordered list of headers (duplicate names
permitted) whose names contain no `": "` and do not begin with CRLF, whose
values contain no CRLF, and whose fields are valid UTF-8 (unchanged by lossy
re-decoding, the invariant of Rust Strings), decoding the encoder's own
header-block output yields the same headers in the same insertion order. -/
theorem c7_roundtrip_preserves_order (hs : List Header)
    (hh : ∀ h ∈ hs, findSeq colonSpace h.name = none
        ∧ crlf.isPrefixOf h.name = false ∧ findSeq crlf h.value = none
        ∧ utf8Lossy h.name = h.name ∧ utf8Lossy h.value = h.value) :
    Response.from_bytes (responseOf hs) = DecodeResult.ok ⟨hs, 200, some []⟩ := by
  have hshape : responseOf hs
      = http11 ++ (sp ++ (strBytes "200" ++ (sp ++ (strBytes "OK"
          ++ (crlf ++ (headerLines hs ++ crlf)))))) := by
    rw [responseOf, writeHeaders_eq]
    simp [List.append_assoc]
  rw [hshape,
    from_bytes_statusline (strBytes "200") (strBytes "OK") (headerLines hs ++ crlf)
      200 (by decide) (by decide) (by decide),
    parseHeaders_block hs crlf [] (fun h hm => ⟨(hh h hm).1, (hh h hm).2.1, (hh h hm).2.2.1⟩),
    parseHeaders_term crlf _ (by decide)]
  have hskip : expect_skip crlf crlf = Except.ok [] := rfl
  simp only [afterHeaders, hskip, List.nil_append,
    map_lossy_id hs (fun h hm => ⟨(hh h hm).2.2.2.1, (hh h hm).2.2.2.2⟩)]

/-- Claim C7, witness: two headers with the same name round-trip in
insertion order. -/
theorem c7_witness :
    Response.from_bytes
        (responseOf [⟨strBytes "x-a", strBytes "1"⟩, ⟨strBytes "x-a", strBytes "2"⟩])
      = DecodeResult.ok
          ⟨[⟨strBytes "x-a", strBytes "1"⟩, ⟨strBytes "x-a", strBytes "2"⟩],
            200, some []⟩ :=
  c7_roundtrip_preserves_order
    [⟨strBytes "x-a", strBytes "1"⟩, ⟨strBytes "x-a", strBytes "2"⟩] (by decide)

/-- Claim C8: the json builder stores the payload bytes as the body,
appends a content-length header whose value is the decimal representation of
the payload length followed by a content-type header, and the serialized
request ends with exactly one blank line followed by the payload bytes. -/
theorem c8_json_sets_body_and_headers (b : RequestBuilder) (payload : List Nat) :
    (b.json payload).request.body = some payload
    ∧ (b.json payload).request.headers
        = b.request.headers
          ++ [⟨strBytes "content-length", decimalBytes payload.length⟩,
              ⟨strBytes "content-type", strBytes "application/json"⟩]
    ∧ Request.write (b.json payload).request []
        = b.request.method.as_bytes ++ sp ++ b.request.url.path
          ++ (match b.request.url.query with
              | some q => q
              | none => [])
          ++ strBytes " HTTP/1.1\r\n"
          ++ headerLines ((b.json payload).request.headers)
          ++ (crlf ++ payload) := by
  refine ⟨rfl, ?_, ?_⟩
  · simp [RequestBuilder.json, RequestBuilder.header]
  · rw [write_spec]
    simp [RequestBuilder.json, RequestBuilder.header]

/-- Claim C9: at request construction the header list starts with a host
header holding the URL's host exactly when the URL exposes one, and is empty
otherwise. -/
theorem c9_host_header_iff_host (m : Method) (url : Url) :
    (RequestBuilder.new m (Except.ok url)).headersOf
      = some (match url.host with
          | some h => [⟨strBytes "host", h⟩]
          | none => []) := by
  cases hh : url.host with
  | none => simp [RequestBuilder.new, BuildResult.headersOf, hh]
  | some h => simp [RequestBuilder.new, BuildResult.headersOf, hh]

/-- Claim C10: when the URL conversion fails, request construction through
`RequestBuilder::new`, `Request::get` or `Request::post` panics on the
unwrapped conversion result instead of returning an error value (the
construction result type has no error case at all). -/
theorem c10_bad_url_panics (m : Method) (e : ParseError) :
    RequestBuilder.new m (Except.error e) = BuildResult.crash
    ∧ Request.get (Except.error e) = BuildResult.crash
    ∧ Request.post (Except.error e) = BuildResult.crash :=
  ⟨rfl, rfl, rfl⟩

end Http
